import Mathlib

/-!
Verification of the EUR-Lex trade scraper core: a shallow embedding of
`src/matcher.py` (keyword-group classification) and `src/scraper.py`
(date-window planning, deduplication, enrichment, orchestration), with
theorems settling the specification claims.

Text is modelled as `List Char`.  Python regex word characters are modelled
as ASCII alphanumerics plus underscore, which covers every configured
keyword and every input exercised here.
-/

namespace EURLexTrade

/-- Text in this development: a list of characters. -/
abbrev Str := List Char

/-- Coerce a string literal into the `Str` model. -/
def str (s : String) : Str := s.data

/-- Regex word character (Python `\w`, restricted to ASCII). -/
def isWordChar (c : Char) : Bool := c.isAlphanum || c == '_'

/-- ASCII whitespace, the characters Python `str.strip` removes on ASCII input. -/
def isSpaceChar (c : Char) : Bool :=
  c == ' ' || c == '\t' || c == '\n' || c == '\r' || c == '\x0b' || c == '\x0c'

/-- Python `str.strip`: drop whitespace from both ends. -/
def stripStr (s : Str) : Str :=
  ((s.dropWhile isSpaceChar).reverse.dropWhile isSpaceChar).reverse

/-- Embedding of `EURLexTradeDocumentMatcher._normalize_text`:
`text.lower().strip()` (the empty-text guard returns the empty string,
which lower/strip also do). -/
def normalize_text (s : Str) : Str := stripStr (s.map Char.toLower)

/-- Is the character at position `p` a word character (out of range counts as no)? -/
def wordAt (s : Str) (p : Nat) : Bool :=
  match s.get? p with
  | some c => isWordChar c
  | none => false

/-- Regex `\b` at position `p` of `s`: word-ness changes between `p - 1` and `p`. -/
def boundaryAt (s : Str) (p : Nat) : Bool :=
  (if p = 0 then false else wordAt s (p - 1)) != wordAt s p

/-- Regex lookbehind `(?<=\b w)` at position `i`: the characters just before `i`
read `w`, and a word boundary holds where `w` starts. -/
def lookbehindAt (w : Str) (s : Str) (i : Nat) : Bool :=
  decide (w.length ≤ i) && w.isPrefixOf (s.drop (i - w.length)) && boundaryAt s (i - w.length)

/-- Start alternation of the non-wildcard keyword pattern in
`_find_keyword_matches`: `(?:\b|(?<=\bin)|(?<=\bfrom)|(?<=\bto)|(?<=\bof))`. -/
def plainStartOk (s : Str) (i : Nat) : Bool :=
  boundaryAt s i || lookbehindAt (str "in") s i || lookbehindAt (str "from") s i ||
    lookbehindAt (str "to") s i || lookbehindAt (str "of") s i

/-- The non-wildcard keyword pattern matches at position `i`:
start alternation, then the escaped keyword literally, then `\b`. -/
def plainMatchAt (s kw : Str) (i : Nat) : Bool :=
  plainStartOk s i && kw.isPrefixOf (s.drop i) && boundaryAt s (i + kw.length)

/-- `re.search` of the non-wildcard keyword pattern: a match at some position. -/
def plainSearch (s kw : Str) : Bool :=
  (List.range (s.length + 1)).any (plainMatchAt s kw)

/-- Tail of the wildcard pattern `\w*\b` at position `j`: some run of word
characters starting at `j` ends at a word boundary. -/
def wildTailOk (s : Str) (j : Nat) : Bool :=
  (List.range (s.length + 1 - j)).any fun n =>
    ((s.drop j).take n).all isWordChar && boundaryAt s (j + n)

/-- The wildcard keyword pattern `\b stem \w* \b` matches at position `i`.
Wildcard keywords have the stem form `stem*` (the star at the end, per the
KeywordGroup data model), so `pattern.replace(star, backslash-w-star)` yields
exactly this pattern. -/
def wildMatchAt (s stem : Str) (i : Nat) : Bool :=
  boundaryAt s i && stem.isPrefixOf (s.drop i) && wildTailOk s (i + stem.length)

/-- `re.search` of the wildcard keyword pattern. -/
def wildSearch (s stem : Str) : Bool :=
  (List.range (s.length + 1)).any (wildMatchAt s stem)

/-- Literal part of a wildcard keyword: everything before the star. -/
def stemOf (kw : Str) : Str := kw.takeWhile (fun c => c ≠ '*')

/-- One keyword test of `_find_keyword_matches`, on already-normalized text:
wildcard keywords use the `\b stem \w*\b` pattern, others the word-boundary
pattern with the glued in/from/to/of prefixes. -/
def keywordHit (ntext : Str) (kw : Str) : Bool :=
  let nk := normalize_text kw
  if nk.contains '*' then wildSearch ntext (stemOf nk) else plainSearch ntext nk

/-- Embedding of `EURLexTradeDocumentMatcher._find_keyword_matches`: empty text
gives no matches; otherwise each keyword of the group found in the normalized
text is reported (in its original spelling).  The Python keyword groups are
sets; they are carried here as duplicate-free lists, and every claim below is
insensitive to their order. -/
def find_keyword_matches (text : Str) (keywords : List Str) : List Str :=
  if text.isEmpty then [] else keywords.filter (keywordHit (normalize_text text))

/-- Group A of the matcher: trade measures. -/
def measure_keywords : List Str :=
  [ str "antidumping", str "anti-dumping", str "countervailing duty", str "CVD",
    str "anti-subsidy", str "safeguard", str "regulation", str "decision", str "review",
    str "sunset review", str "circumvention", str "antitrust", str "sanctions",
    str "trade defence", str "trade defense", str "dumping", str "subsidy" ]

/-- Group B of the matcher: products. -/
def product_keywords : List Str :=
  [ str "phosphate", str "phosphate rock", str "phosphoric acid", str "fertilizer",
    str "fertiliser", str "DAP", str "MAP", str "TSP", str "SSP", str "diammonium phosphate",
    str "monoammonium phosphate", str "triple superphosphate", str "single superphosphate",
    str "HS25", str "HS31", str "3103", str "3105", str "mineral fertilizer",
    str "chemical fertilizer" ]

/-- Group C of the matcher: places and companies. -/
def place_company_keywords : List Str :=
  [ str "Morocco", str "OCP", str "Mosaic", str "Nutrien", str "Yara", str "ICL",
    str "Maaden", str "Eurochem", str "Phosagro", str "CF Industries", str "CFIndustries",
    str "Jordan Phosphate", str "JPMC", str "Moroccan", str "Israel Chemicals",
    str "PhosAgro", str "EuroChem", str "Nutrien Ltd", str "The Mosaic Company" ]

/-- Per-document classification result (`match_details`). -/
structure MatchDetail where
  measure_kws : List Str
  product_kws : List Str
  place_company_kws : List Str
  groups_matched : Nat
  total_groups : Nat
  matched_text_snippets : List Str
  match_score : Nat
deriving DecidableEq, Repr

/-- A document record.  Python passes open dictionaries through the pipeline;
every field any embedded operation reads is a named optional field here, and a
field read with `.get(key, default)` behaves as the default when absent. -/
structure Doc where
  DN : Option Str := none
  TI : Option Str := none
  TX : Option Str := none
  SU : Option Str := none
  AU : Option Str := none
  TE : Option Str := none
  DD : Option Str := none
  FM : Option Str := none
  OJ : Option Str := none
  scraped_at : Option Str := none
  companies : List Str := []
  products : List Str := []
  match_details : Option MatchDetail := none
  document_number : Option Str := none
  title : Option Str := none
  publication_date : Option Str := none
  author : Option Str := none
  form : Option Str := none
  subject : Option Str := none
  text : Option Str := none
  text_excerpt : Option Str := none
  official_journal : Option Str := none
  eurlex_url : Option Str := none
deriving DecidableEq, Repr

/-- `document.get(key, '')`: an absent field reads as the empty string. -/
def getS (o : Option Str) : Str := o.getD []

/-- Python truthiness of an optional string field: present and non-empty. -/
def truthy (o : Option Str) : Bool := !(getS o).isEmpty

/-- The searchable blob of `is_match`: title, text, subject, author and
excerpt joined with single spaces, absent fields contributing empty strings. -/
def searchable_text (d : Doc) : Str :=
  getS d.TI ++ [' '] ++ getS d.TX ++ [' '] ++ getS d.SU ++ [' '] ++
    getS d.AU ++ [' '] ++ getS d.TE

/-- Length of the maximal run of word characters starting at `j`; the end
position of the greedy `\w*` of the wildcard pattern. -/
def maxWordRun (s : Str) (j : Nat) : Nat := ((s.drop j).takeWhile isWordChar).length

/-- Embedding of `_extract_matching_snippets`: for each matched keyword, find
its first occurrence in the normalized text (a plain substring search for
ordinary keywords, the full pattern for wildcard ones), then cut fifty
characters of context on both sides out of the original text and wrap the
stripped cut in ellipses. -/
def extract_matching_snippets (text : Str) (matched : List Str) : List Str :=
  if text.isEmpty || matched.isEmpty then [] else
  let nt := normalize_text text
  matched.filterMap fun kw =>
    let nk := normalize_text kw
    let pos? : Option (Nat × Nat) :=
      if nk.contains '*' then
        let stem := stemOf nk
        ((List.range (nt.length + 1)).find? (wildMatchAt nt stem)).map
          fun i => (i, i + stem.length + maxWordRun nt (i + stem.length))
      else
        ((List.range (nt.length + 1)).find? (fun i => nk.isPrefixOf (nt.drop i))).map
          fun i => (i, i + nk.length)
    match pos? with
    | none => none
    | some (a, b) =>
      let lo := a - 50
      let hi := min text.length (b + 50)
      let snippet := stripStr ((text.drop lo).take (hi - lo))
      if snippet.isEmpty then none else some (str "..." ++ snippet ++ str "...")

/-- Embedding of `EURLexTradeDocumentMatcher.is_match`: the boolean decision
together with the `match_details` record. -/
def is_match (document : Doc) : Bool × MatchDetail :=
  let s := searchable_text document
  let measure_matches := find_keyword_matches s measure_keywords
  let product_matches := find_keyword_matches s product_keywords
  let place_company_matches := find_keyword_matches s place_company_keywords
  let im := decide (0 < place_company_matches.length) &&
    (decide (0 < measure_matches.length) || decide (0 < product_matches.length))
  let groups := (if 0 < measure_matches.length then 1 else 0) +
    (if 0 < product_matches.length then 1 else 0) +
    (if 0 < place_company_matches.length then 1 else 0)
  let all_matched := measure_matches ++ product_matches ++ place_company_matches
  (im,
   { measure_kws := measure_matches
     product_kws := product_matches
     place_company_kws := place_company_matches
     groups_matched := groups
     total_groups := 3
     matched_text_snippets := (extract_matching_snippets s all_matched).take 3
     match_score := all_matched.length })

/-- Embedding of `filter_documents`: keep the matching documents in order,
attaching their match details (`scraped_at` is re-read with a `None` default,
which leaves the optional field unchanged in this model). -/
def filter_documents (documents : List Doc) : List Doc :=
  documents.filterMap fun d =>
    let r := is_match d
    if r.1 then some { d with match_details := some r.2 } else none

/-- Substring test (Python `in` on strings). -/
def isSubstr (needle hay : Str) : Bool :=
  (List.range (hay.length + 1)).any fun i => needle.isPrefixOf (hay.drop i)

/-- Embedding of `extract_entities`: companies are the place/company keywords
other than the two country names whose normalized form is a substring of the
normalized title+text+subject blob; products likewise from the product group. -/
def extract_entities (d : Doc) : List Str × List Str :=
  let t := getS d.TI ++ [' '] ++ getS d.TX ++ [' '] ++ getS d.SU
  let nt := normalize_text t
  ( place_company_keywords.filter fun kw =>
      !(kw == str "Morocco" || kw == str "Moroccan") && isSubstr (normalize_text kw) nt,
    product_keywords.filter fun kw => isSubstr (normalize_text kw) nt )

/-- A raw record field as the dynamically-typed dictionary stores it: the key
can be missing, hold a string, or hold a non-string value such as `None`. -/
inductive DynField where
  | absent
  | strVal (v : Str)
  | nonStr
deriving DecidableEq, Repr

/-- `document.get(key, '')` on a dynamic field, as consumed by `" ".join`:
an absent key contributes the default empty string, a string value itself,
and a present non-string value makes the join raise `TypeError` (`none`). -/
def DynField.joined : DynField → Option Str
  | .absent => some []
  | .strVal v => some v
  | .nonStr => none

/-- A string-or-absent dynamic field. -/
def DynField.ofOpt : Option Str → DynField
  | none => .absent
  | some v => .strVal v

/-- Embedding of `is_match` over dynamically-typed field values for the five
text fields it reads: building the searchable blob with `" ".join` raises
`TypeError` (`none`) as soon as some present value is not a string; otherwise
the ordinary matcher runs on the joined blob. -/
def is_match_dyn (ti tx su au te : DynField) : Option (Bool × MatchDetail) :=
  match ti.joined, tx.joined, su.joined, au.joined, te.joined with
  | some a, some b, some c, some d, some e =>
    some (is_match { TI := some a, TX := some b, SU := some c, AU := some d, TE := some e })
  | _, _, _, _, _ => none

/-! ### Dates (`datetime.date`, `strptime("%Y-%m-%d")`, `timedelta(days=1)`) -/

/-- A calendar date. -/
structure Date where
  year : Nat
  month : Nat
  day : Nat
deriving DecidableEq, Repr

/-- Gregorian leap year. -/
def isLeap (y : Nat) : Bool := y % 4 == 0 && (y % 100 != 0 || y % 400 == 0)

/-- Days in a month. -/
def daysInMonth (y m : Nat) : Nat :=
  if m = 2 then (if isLeap y then 29 else 28)
  else if m = 4 || m = 6 || m = 9 || m = 11 then 30 else 31

/-- `date + timedelta(days=1)`. -/
def nextDay (d : Date) : Date :=
  if d.day < daysInMonth d.year d.month then ⟨d.year, d.month, d.day + 1⟩
  else if d.month < 12 then ⟨d.year, d.month + 1, 1⟩
  else ⟨d.year + 1, 1, 1⟩

/-- Strict comparison of dates. -/
def dateLt (a b : Date) : Bool :=
  a.year < b.year || (a.year == b.year &&
    (a.month < b.month || (a.month == b.month && a.day < b.day)))

/-- Split a character list on dashes, keeping empty parts. -/
def splitDash (s : Str) : List Str :=
  s.foldr (fun c acc =>
    if c = '-' then [] :: acc
    else match acc with
    | [] => [[c]]
    | g :: gs => (c :: g) :: gs) [[]]

/-- Read a non-empty all-digit character list as a number. -/
def natOfDigits (s : Str) : Option Nat :=
  if !s.isEmpty && s.all Char.isDigit then
    some (s.foldl (fun n c => n * 10 + (c.toNat - 48)) 0)
  else none

/-- The `%d` field of CPython's `_strptime` (pattern
`3[0-1]|[1-2]\d|0[1-9]|[1-9]| [1-9]`): one or two digits whose value the
surrounding validation bounds, or a space followed by a non-zero digit. -/
def parseDayPart (ds : Str) : Option Nat :=
  match ds with
  | [' ', c] =>
    if decide ('1' ≤ c) && decide (c ≤ '9') then some (c.toNat - 48) else none
  | _ =>
    if !ds.isEmpty && ds.all Char.isDigit && decide (ds.length ≤ 2) then
      some (ds.foldl (fun n c => n * 10 + (c.toNat - 48)) 0)
    else none

/-- Embedding of `datetime.strptime(value, "%Y-%m-%d").date()` following
CPython's `_strptime` field patterns: `%Y` is exactly four digits
(`\d\d\d\d`), `%m` one or two digits with value 1–12, `%d` one or two digits
or a space-padded single digit, with the day validated against the month by
the `date` constructor; anything else raises `ValueError`, modelled as
`none`. -/
def parseDate (s : Str) : Option Date :=
  match splitDash s with
  | [ys, ms, ds] =>
    match natOfDigits ys, natOfDigits ms, parseDayPart ds with
    | some y, some m, some d =>
      if ys.length = 4 && ms.length ≤ 2 &&
          1 ≤ y && 1 ≤ m && m ≤ 12 && 1 ≤ d && d ≤ daysInMonth y m
      then some ⟨y, m, d⟩ else none
    | _, _, _ => none
  | _ => none

/-- Left-pad a number with zeros to a given width. -/
def padNat (w n : Nat) : Str :=
  let ds := Nat.toDigits 10 n
  List.replicate (w - ds.length) '0' ++ ds

/-- `date.isoformat()` / `strftime('%Y-%m-%d')`. -/
def dateISO (d : Date) : Str :=
  padNat 4 d.year ++ ['-'] ++ padNat 2 d.month ++ ['-'] ++ padNat 2 d.day

/-! ### Scraper state and helpers (`scraper.py`) -/

/-- Contents of `state.json`. -/
structure CrawlState where
  last_checked_date : Option Str := none
  last_run : Option Str := none
  total_documents : Nat := 0
deriving DecidableEq, Repr

/-- Embedding of `EURLexTradeScraper._get_date_range`: `to_date` is today;
`from_date` is the watermark plus one day when the stored watermark is truthy
and parses, and 2024-01-01 when it is absent or unparsable (the latter only
logs a warning). -/
def get_date_range (st : CrawlState) (today : Date) : Date × Date :=
  if truthy st.last_checked_date then
    match parseDate (getS st.last_checked_date) with
    | some d => (nextDay d, today)
    | none => (⟨2024, 1, 1⟩, today)
  else (⟨2024, 1, 1⟩, today)

/-- The non-empty document numbers of a corpus (`existing_dns`). -/
def existingDNs (docs : List Doc) : List Str :=
  docs.filterMap fun d => if truthy d.DN then some (getS d.DN) else none

/-- The non-empty titles of a corpus (`existing_titles`). -/
def existingTitles (docs : List Doc) : List Str :=
  docs.filterMap fun d => if truthy d.TI then some (getS d.TI) else none

/-- Loop of `_deduplicate_documents`: running key and title sets, a candidate
dropped on a seen document number, or, lacking one, on a seen title; survivors
register their document number and their title. -/
def dedupGo (dns titles : List Str) : List Doc → List Doc
  | [] => []
  | d :: rest =>
    if truthy d.DN && dns.contains (getS d.DN) then dedupGo dns titles rest
    else if !truthy d.DN && truthy d.TI && titles.contains (getS d.TI) then
      dedupGo dns titles rest
    else
      d :: dedupGo (if truthy d.DN then getS d.DN :: dns else dns)
        (if truthy d.TI then getS d.TI :: titles else titles) rest

/-- Embedding of `EURLexTradeScraper._deduplicate_documents`. -/
def deduplicate_documents (existing new : List Doc) : List Doc :=
  dedupGo (existingDNs existing) (existingTitles existing) new

/-- Loop of `_clean_existing_duplicates`: a document with a document number is
dropped on a seen number and otherwise registers it; only a document without
one consults and registers the title set; documents with neither are kept. -/
def cleanGo (dns titles : List Str) : List Doc → List Doc
  | [] => []
  | d :: rest =>
    if truthy d.DN then
      if dns.contains (getS d.DN) then cleanGo dns titles rest
      else d :: cleanGo (getS d.DN :: dns) titles rest
    else if truthy d.TI then
      if titles.contains (getS d.TI) then cleanGo dns titles rest
      else d :: cleanGo dns (getS d.TI :: titles) rest
    else d :: cleanGo dns titles rest

/-- Embedding of `EURLexTradeScraper._clean_existing_duplicates`. -/
def clean_existing_duplicates (documents : List Doc) : List Doc :=
  if documents.isEmpty then documents else cleanGo [] [] documents

/-- Enrichment of one document (loop body of `_enrich_documents`, at time
`now`): stamp `scraped_at`, attach extracted entities, copy the raw fields
into their canonical names, and derive the EUR-Lex URL from a truthy
document number. -/
def enrichDoc (now : Str) (d : Doc) : Doc :=
  let ents := extract_entities d
  { d with
    scraped_at := some now
    companies := ents.1
    products := ents.2
    document_number := some (getS d.DN)
    title := some (getS d.TI)
    publication_date := some (getS d.DD)
    author := some (getS d.AU)
    form := some (getS d.FM)
    subject := some (getS d.SU)
    text := some (getS d.TX)
    text_excerpt := some (getS d.TE)
    official_journal := some (getS d.OJ)
    eurlex_url :=
      if truthy d.DN then
        some (str "https://eur-lex.europa.eu/legal-content/EN/TXT/?uri=CELEX:" ++ getS d.DN)
      else d.eurlex_url }

/-- Embedding of `EURLexTradeScraper._enrich_documents`. -/
def enrich_documents (documents : List Doc) (now : Str) : List Doc :=
  documents.map (enrichDoc now)

/-- Sort key of the final corpus: `doc.get('publication_date', '')`. -/
def sortKey (d : Doc) : Str := getS d.publication_date

/-- Lexicographic order on character lists by code point, Python's string
comparison. -/
def strLe : Str → Str → Bool
  | [], _ => true
  | _ :: _, [] => false
  | a :: as, b :: bs =>
    decide (a.toNat < b.toNat) || (decide (a.toNat = b.toNat) && strLe as bs)

/-- Stable descending insertion by publication date: the new document goes in
front of the first strictly smaller key, after equal keys — the behaviour of
Python's stable `list.sort(key=..., reverse=True)`. -/
def insertDesc (d : Doc) : List Doc → List Doc
  | [] => [d]
  | e :: es => if strLe (sortKey e) (sortKey d) then d :: e :: es else e :: insertDesc d es

/-- The corpus sort `all_results.sort(key=publication_date, reverse=True)`,
modelled as a stable insertion sort. -/
def sortByDateDesc : List Doc → List Doc
  | [] => []
  | d :: ds => insertDesc d (sortByDateDesc ds)

/-! ### Orchestration (`EURLexTradeScraper.scrape`)

File input/output is modelled by explicit state passing: a `World` holds the
contents of the results and state files, and `Faults` records which of the
four file operations fail in this run.  Each load/save helper catches its own
exceptions (`try/except` around every file operation in the source), so a
failed load yields the fallback value and a failed save leaves the file as it
was; only the web client can raise into `scrape`'s outer handler, so the
gateway is passed as an `Except`. -/

/-- The persisted files. -/
structure World where
  results : List Doc
  state : CrawlState
deriving DecidableEq, Repr

/-- Which file operations succeed during a run (`true` means success). -/
structure Faults where
  loadResults : Bool := true
  saveResults : Bool := true
  loadState : Bool := true
  saveState : Bool := true
deriving DecidableEq, Repr

/-- No file operation fails. -/
def noFaults : Faults := {}

/-- `_load_results`: a read failure is caught and yields the empty list. -/
def load_results (w : World) (f : Faults) : List Doc :=
  if f.loadResults then w.results else []

/-- `_save_results`: a write failure is caught and leaves the file unchanged. -/
def save_results (w : World) (f : Faults) (rs : List Doc) : World :=
  if f.saveResults then { w with results := rs } else w

/-- `_load_state`: a read failure is caught and yields the empty state. -/
def load_state (w : World) (f : Faults) : CrawlState :=
  if f.loadState then w.state else {}

/-- `_save_state`: a write failure is caught and leaves the file unchanged. -/
def save_state (w : World) (f : Faults) (st : CrawlState) : World :=
  if f.saveState then { w with state := st } else w

/-- Run summary returned by `scrape` (the fields the claims inspect; the
human-readable message and the duration are omitted). -/
structure ScrapeResult where
  status : Str
  from_date : Option Date := none
  to_date : Option Date := none
  last_checked_date : Option Str := none
  new_documents : Nat := 0
  total_documents : Nat := 0
  raw_documents_fetched : Option Nat := none
  matched_documents : Option Nat := none
deriving DecidableEq, Repr

/-- The date window `scrape` uses: forced current year, forced 2024 epoch, or
the incremental window from the stored watermark. -/
def plannedWindow (w : World) (f : Faults) (today : Date)
    (force_full_2024 force_current_year : Bool) : Date × Date :=
  if force_current_year then (⟨today.year, 1, 1⟩, today)
  else if force_full_2024 then (⟨2024, 1, 1⟩, today)
  else get_date_range (load_state w f) today

/-- Embedding of `EURLexTradeScraper.scrape`.  Arguments: the persisted
files, the fault pattern of this run's file operations, the web client's
response (`Except.error` when `search_trade_regulations` raises), today's
date, the current timestamp, and the two override flags.  Returns the run
summary, the files after the run, and whether the web client was invoked. -/
def scrape (w : World) (f : Faults) (gw : Except Str (List Doc)) (today : Date)
    (now : Str) (force_full_2024 force_current_year : Bool) :
    ScrapeResult × World × Bool :=
  let p := plannedWindow w f today force_full_2024 force_current_year
  if dateLt p.2 p.1 then
    let existing := load_results w f
    let w1 := save_state w f
      { last_checked_date := some (dateISO p.2), last_run := some now,
        total_documents := existing.length }
    ({ status := str "up_to_date", from_date := some p.1, to_date := some p.2,
       last_checked_date := some (dateISO p.2), new_documents := 0,
       total_documents := existing.length }, w1, false)
  else
    match gw with
    | .error _ => ({ status := str "error" }, w, true)
    | .ok raw =>
      let matched := filter_documents raw
      let enriched := enrich_documents matched now
      let existing := clean_existing_duplicates (load_results w f)
      let unique_new := deduplicate_documents existing enriched
      let all_results :=
        if unique_new.isEmpty then existing else sortByDateDesc (existing ++ unique_new)
      let w1 := if unique_new.isEmpty then w else save_results w f all_results
      let w2 := save_state w1 f
        { last_checked_date := some (dateISO p.2), last_run := some now,
          total_documents := all_results.length }
      ({ status := str "success", from_date := some p.1, to_date := some p.2,
         last_checked_date := some (dateISO p.2), new_documents := unique_new.length,
         total_documents := all_results.length,
         raw_documents_fetched := some raw.length,
         matched_documents := some matched.length }, w2, true)

/-! ### Claim-side specifications

The following definitions are not translations of the source; they state,
in the claims' own words, what the behaviour is claimed to be.  Theorems
below compare them with the embedded code. -/

/-- The spec's word-boundary report condition for a keyword (claim C2 as
written): the keyword occurs in the normalized text with a word boundary on
each side. -/
def occursDelimitedB (k s : Str) : Bool :=
  (List.range (s.length + 1)).any fun i =>
    boundaryAt s i && k.isPrefixOf (s.drop i) && boundaryAt s (i + k.length)

/-- Non-wildcard report condition of claim C2 as amended: the keyword occurs
with a word boundary after it, and before it either a word boundary or one of
the glued literal prefixes in/from/to/of itself starting at a word boundary. -/
def PlainOccurs (s k : Str) : Prop :=
  ∃ i,
    (boundaryAt s i = true ∨ lookbehindAt (str "in") s i = true ∨
      lookbehindAt (str "from") s i = true ∨ lookbehindAt (str "to") s i = true ∨
      lookbehindAt (str "of") s i = true) ∧
    (∃ t, s.drop i = k ++ t) ∧ boundaryAt s (i + k.length) = true

/-- Wildcard report condition of claim C2: some token of the text — a block of
word characters with word boundaries on both sides — has the stem as a literal
prefix. -/
def TokenPrefix (s stem : Str) : Prop :=
  ∃ i n, boundaryAt s i = true ∧ boundaryAt s (i + n) = true ∧
    ((s.drop i).take n).all isWordChar = true ∧ ∃ t, (s.drop i).take n = stem ++ t

/-- Loop of claim C3's description of the merge: a candidate is dropped iff
its non-empty document number is in the running key set, or it lacks one and
its non-empty title is in the running title set; a survivor's number and title
are added to the running sets immediately. -/
def dedupSpecGo (keys titles : List Str) : List Doc → List Doc
  | [] => []
  | d :: rest =>
    if (truthy d.DN && keys.contains (getS d.DN)) ||
        (!truthy d.DN && truthy d.TI && titles.contains (getS d.TI)) then
      dedupSpecGo keys titles rest
    else
      d :: dedupSpecGo (if truthy d.DN then getS d.DN :: keys else keys)
        (if truthy d.TI then getS d.TI :: titles else titles) rest

/-- Claim C3's description of `_deduplicate_documents`, starting from the
non-empty document numbers and titles of the existing corpus. -/
def dedupSpec (existing new : List Doc) : List Doc :=
  dedupSpecGo (existingDNs existing) (existingTitles existing) new

/-- Has some earlier document with a truthy document number this number? -/
def keyedSeenDN (prev : List Doc) (x : Str) : Bool :=
  prev.any fun e => truthy e.DN && getS e.DN == x

/-- Has some earlier document without a document number this truthy title? -/
def keylessSeenTI (prev : List Doc) (x : Str) : Bool :=
  prev.any fun e => !truthy e.DN && truthy e.TI && getS e.TI == x

/-- Claim C10's description of the cleanup pass, phrased positionally: a
document with a number is kept iff no earlier document carries the same
number; a document without one but with a title is kept iff no earlier
number-less document carries the same title (numbers never register titles);
documents with neither are kept. -/
def cleanSpecAux (prev : List Doc) : List Doc → List Doc
  | [] => []
  | d :: rest =>
    let keep :=
      if truthy d.DN then !keyedSeenDN prev (getS d.DN)
      else if truthy d.TI then !keylessSeenTI prev (getS d.TI)
      else true
    (if keep then [d] else []) ++ cleanSpecAux (prev ++ [d]) rest

/-- Claim C10's description of `_clean_existing_duplicates`. -/
def cleanSpec (documents : List Doc) : List Doc := cleanSpecAux [] documents

/-- Claim C7's ordering invariant: adjacent documents have non-increasing
publication dates. -/
def SortedByDateDesc (l : List Doc) : Prop :=
  List.Chain' (fun x y => strLe (sortKey y) (sortKey x) = true) l

/-! ### Concrete runs used by counterexamples -/

/-- A run in which writing the results file fails while a matching document
was fetched (claim C6). -/
def faultySaveRun : ScrapeResult × World × Bool :=
  scrape { results := [], state := {} } { saveResults := false }
    (Except.ok [ { TI := some (str "OCP dumping") } ]) ⟨2024, 1, 2⟩ (str "NOW") false false

/-- A stored corpus in ascending date order (claim C7). -/
def unsortedWorld : World :=
  { results :=
      [ { DN := some (str "K1"), publication_date := some (str "2024-01-01") },
        { DN := some (str "K2"), publication_date := some (str "2024-05-01") } ],
    state := {} }

/-- A fault-free run over `unsortedWorld` in which the gateway returns nothing
new (claim C7). -/
def noNewRun : ScrapeResult × World × Bool :=
  scrape unsortedWorld noFaults (Except.ok []) ⟨2024, 1, 2⟩ (str "NOW") false false

/-- A store whose watermark lies in the future, so the planned window is
already exhausted (claim C5's witness scenario). -/
def upToDateWorld : World :=
  { results := [ { DN := some (str "A") } ],
    state := { last_checked_date := some (str "2099-01-01") } }

/-- An empty store (claim C7's witness scenario). -/
def emptyWorld : World := { results := [], state := {} }

/-- One raw candidate that matches the classification rule. -/
def oneMatchRaw : List Doc :=
  [ { TI := some (str "OCP dumping"), DD := some (str "2024-01-05") } ]

/-! ### Theorems -/

/-- C1: `is_match` returns true iff the place/company group has at least one
match in the combined text blob and at least one of the measure group or the
product group also has a match.  The two negative cases of the claim (a
place/company match with neither other group, and no place/company match at
all) are the two ways this equivalence can fail to hold on the right. -/
theorem C1_is_match_decision_rule (d : Doc) :
    (is_match d).1 = true ↔
      (find_keyword_matches (searchable_text d) place_company_keywords ≠ [] ∧
        (find_keyword_matches (searchable_text d) measure_keywords ≠ [] ∨
          find_keyword_matches (searchable_text d) product_keywords ≠ [])) := by
  simp [is_match, Bool.and_eq_true, Bool.or_eq_true, decide_eq_true_eq, List.length_pos]

/-- C8 counterexample: a record whose title key holds a present non-string
value (CPython's `None`) makes `is_match` raise `TypeError` while `" ".join`
builds the searchable blob — the malformed field is not treated as an empty
string, which would have produced the second run's ordinary result. -/
theorem C8_cx_malformed_field_raises :
    is_match_dyn DynField.nonStr DynField.absent DynField.absent DynField.absent
        DynField.absent = none ∧
    is_match_dyn (DynField.strVal []) DynField.absent DynField.absent DynField.absent
        DynField.absent = some (is_match {}) :=
  ⟨rfl, rfl⟩

/-- C8 as amended: `is_match` is total and pure over every record whose
present title/text/subject/author/excerpt values are strings — for any subset
of the five fields present or absent it returns a `(bool, MatchDetail)` pair,
with missing fields behaving exactly as empty strings; a present non-string
value in any of the five fields, however, raises `TypeError` (in this model
`none`) instead of being treated as an empty string, and those are exactly
the raising inputs. -/
theorem C8_is_match_total_on_string_fields :
    (∀ ti tx su au te : Option Str,
      is_match_dyn (DynField.ofOpt ti) (DynField.ofOpt tx) (DynField.ofOpt su)
          (DynField.ofOpt au) (DynField.ofOpt te) =
        some (is_match { TI := ti, TX := tx, SU := su, AU := au, TE := te })) ∧
    (∀ ti tx su au te : DynField,
      is_match_dyn ti tx su au te = none ↔
        (ti = DynField.nonStr ∨ tx = DynField.nonStr ∨ su = DynField.nonStr ∨
          au = DynField.nonStr ∨ te = DynField.nonStr)) := by
  constructor
  · intro ti tx su au te
    cases ti <;> cases tx <;> cases su <;> cases au <;> cases te <;> rfl
  · intro ti tx su au te
    cases ti <;> cases tx <;> cases su <;> cases au <;> cases te <;>
      simp [is_match_dyn, DynField.joined]

/-- C9 counterexample: a document entering `_enrich_documents` with an
existing `scraped_at` value does not keep it — the stamp is unconditional. -/
theorem C9_cx_existing_scraped_at_overwritten :
    (enrich_documents [ { scraped_at := some (str "OLD") } ] (str "NEW")).map
        (fun d => d.scraped_at) = [some (str "NEW")] ∧
      (enrich_documents [ { scraped_at := some (str "OLD") } ] (str "NEW")).map
        (fun d => d.scraped_at) ≠ [some (str "OLD")] := by decide

/-- The enrichment of one document always carries the fresh timestamp. -/
theorem enrichDoc_scraped_at (now : Str) (d : Doc) : (enrichDoc now d).scraped_at = some now := rfl

/-- C9 as amended: enrichment stamps `scraped_at` with the current time
unconditionally, overwriting any existing value: after `_enrich_documents`
every document's `scraped_at` is the current time. -/
theorem C9_enrich_stamps_scraped_at_unconditionally (documents : List Doc) (now : Str) :
    (enrich_documents documents now).map (fun d => d.scraped_at) =
      documents.map fun _ => some now := by
  induction documents with
  | nil => rfl
  | cons d rest ih => simpa [enrich_documents, enrichDoc_scraped_at] using ih

/-- The two deduplication loops agree: the code's two sequential checks with
`continue` implement exactly the claim's single drop condition. -/
theorem dedupGo_eq_dedupSpecGo :
    ∀ (l : List Doc) (keys titles : List Str), dedupGo keys titles l = dedupSpecGo keys titles l := by
  intro l
  induction l with
  | nil => intro keys titles; rfl
  | cons d rest ih =>
    intro keys titles
    simp only [dedupGo, dedupSpecGo, Bool.or_eq_true, Bool.and_eq_true]
    rcases h1 : truthy d.DN with _ | _ <;>
      rcases h2 : keys.contains (getS d.DN) with _ | _ <;>
        rcases h3 : titles.contains (getS d.TI) with _ | _ <;>
          rcases h4 : truthy d.TI with _ | _ <;>
            simp [h1, h2, h3, h4, ih]

/-- Membership in `keyedSeenDN` after processing one more document. -/
theorem keyedSeenDN_append (prev : List Doc) (d : Doc) (x : Str) :
    keyedSeenDN (prev ++ [d]) x = (keyedSeenDN prev x || (truthy d.DN && (getS d.DN == x))) := by
  simp [keyedSeenDN, List.any_append]

/-- Membership in `keylessSeenTI` after processing one more document. -/
theorem keylessSeenTI_append (prev : List Doc) (d : Doc) (x : Str) :
    keylessSeenTI (prev ++ [d]) x =
      (keylessSeenTI prev x || (!truthy d.DN && truthy d.TI && (getS d.TI == x))) := by
  simp [keylessSeenTI, List.any_append]

/-- Symmetry of boolean equality on character lists. -/
theorem beqComm (a b : Str) : (a == b) = (b == a) := by
  rcases h : a == b with _ | _ <;> rcases h2 : b == a with _ | _ <;> try rfl
  · cases eq_of_beq h2; rw [beq_self_eq_true] at h; exact h.symm
  · cases eq_of_beq h; rw [beq_self_eq_true] at h2; exact h2

/-- A document without a truthy number registers no number. -/
theorem keyedSeen_snoc_noDN (prev : List Doc) (d : Doc) (x : Str) (h1 : truthy d.DN = false) :
    keyedSeenDN (prev ++ [d]) x = keyedSeenDN prev x := by
  rw [keyedSeenDN_append, h1]; simp

/-- A document with a truthy number registers exactly that number. -/
theorem keyedSeen_snoc_DN (prev : List Doc) (d : Doc) (x : Str) (h1 : truthy d.DN = true) :
    keyedSeenDN (prev ++ [d]) x = (keyedSeenDN prev x || (getS d.DN == x)) := by
  rw [keyedSeenDN_append, h1]; simp

/-- Registering an already-seen number changes nothing. -/
theorem keyedSeen_snoc_absorb (prev : List Doc) (d : Doc) (x : Str) (h1 : truthy d.DN = true)
    (hseen : keyedSeenDN prev (getS d.DN) = true) :
    keyedSeenDN (prev ++ [d]) x = keyedSeenDN prev x := by
  rw [keyedSeen_snoc_DN prev d x h1]
  rcases hx : (getS d.DN == x) with _ | _
  · simp
  · cases eq_of_beq hx; simp [hseen]

/-- A document with a truthy number registers no title in the cleanup pass. -/
theorem keylessSeen_snoc_DN (prev : List Doc) (d : Doc) (x : Str) (h1 : truthy d.DN = true) :
    keylessSeenTI (prev ++ [d]) x = keylessSeenTI prev x := by
  rw [keylessSeenTI_append, h1]; simp

/-- A document without a truthy title registers no title. -/
theorem keylessSeen_snoc_noTI (prev : List Doc) (d : Doc) (x : Str) (h4 : truthy d.TI = false) :
    keylessSeenTI (prev ++ [d]) x = keylessSeenTI prev x := by
  rw [keylessSeenTI_append, h4]; simp

/-- A number-less document with a truthy title registers exactly that title. -/
theorem keylessSeen_snoc_TI (prev : List Doc) (d : Doc) (x : Str) (h1 : truthy d.DN = false)
    (h4 : truthy d.TI = true) :
    keylessSeenTI (prev ++ [d]) x = (keylessSeenTI prev x || (getS d.TI == x)) := by
  rw [keylessSeenTI_append, h1, h4]; simp

/-- Registering an already-seen title changes nothing. -/
theorem keylessSeen_snoc_absorb (prev : List Doc) (d : Doc) (x : Str) (h1 : truthy d.DN = false)
    (h4 : truthy d.TI = true) (hseen : keylessSeenTI prev (getS d.TI) = true) :
    keylessSeenTI (prev ++ [d]) x = keylessSeenTI prev x := by
  rw [keylessSeen_snoc_TI prev d x h1 h4]
  rcases hx : (getS d.TI == x) with _ | _
  · simp
  · cases eq_of_beq hx; simp [hseen]

/-- Consing onto the seen set adds exactly that element. -/
theorem contains_cons_or (a x : Str) (l : List Str) :
    (a :: l).contains x = (l.contains x || (a == x)) := by
  rw [List.contains_cons, beqComm x a, Bool.or_comm]

/-- The cleanup loop computes the positional description: the seen-sets are
exactly the registered data of the processed prefix. -/
theorem cleanGo_eq_cleanSpecAux :
    ∀ (l prev : List Doc) (dns titles : List Str),
      (∀ x, dns.contains x = keyedSeenDN prev x) →
      (∀ x, titles.contains x = keylessSeenTI prev x) →
      cleanGo dns titles l = cleanSpecAux prev l := by
  intro l
  induction l with
  | nil => intro prev dns titles _ _; rfl
  | cons d rest ih =>
    intro prev dns titles hdns htitles
    simp only [cleanGo, cleanSpecAux]
    rcases h1 : truthy d.DN with _ | _
    · rcases h4 : truthy d.TI with _ | _
      · have hrec : cleanGo dns titles rest = cleanSpecAux (prev ++ [d]) rest :=
          ih (prev ++ [d]) dns titles
            (fun x => by rw [hdns x, keyedSeen_snoc_noDN prev d x h1])
            (fun x => by rw [htitles x, keylessSeen_snoc_noTI prev d x h4])
        simp [h1, h4, hrec]
      · rcases h3 : titles.contains (getS d.TI) with _ | _
        · have hseen : keylessSeenTI prev (getS d.TI) = false := (htitles _).symm.trans h3
          have hrec : cleanGo dns (getS d.TI :: titles) rest = cleanSpecAux (prev ++ [d]) rest :=
            ih (prev ++ [d]) dns (getS d.TI :: titles)
              (fun x => by rw [hdns x, keyedSeen_snoc_noDN prev d x h1])
              (fun x => by
                rw [contains_cons_or, htitles x, keylessSeen_snoc_TI prev d x h1 h4])
          simp [h1, h4, h3, hseen, hrec]
        · have hseen : keylessSeenTI prev (getS d.TI) = true := (htitles _).symm.trans h3
          have hrec : cleanGo dns titles rest = cleanSpecAux (prev ++ [d]) rest :=
            ih (prev ++ [d]) dns titles
              (fun x => by rw [hdns x, keyedSeen_snoc_noDN prev d x h1])
              (fun x => by rw [htitles x, keylessSeen_snoc_absorb prev d x h1 h4 hseen])
          simp [h1, h4, h3, hseen, hrec]
    · rcases h2 : dns.contains (getS d.DN) with _ | _
      · have hseen : keyedSeenDN prev (getS d.DN) = false := (hdns _).symm.trans h2
        have hrec : cleanGo (getS d.DN :: dns) titles rest = cleanSpecAux (prev ++ [d]) rest :=
          ih (prev ++ [d]) (getS d.DN :: dns) titles
            (fun x => by rw [contains_cons_or, hdns x, keyedSeen_snoc_DN prev d x h1])
            (fun x => by rw [htitles x, keylessSeen_snoc_DN prev d x h1])
        simp [h1, h2, hseen, hrec]
      · have hseen : keyedSeenDN prev (getS d.DN) = true := (hdns _).symm.trans h2
        have hrec : cleanGo dns titles rest = cleanSpecAux (prev ++ [d]) rest :=
          ih (prev ++ [d]) dns titles
            (fun x => by rw [hdns x, keyedSeen_snoc_absorb prev d x h1 hseen])
            (fun x => by rw [htitles x, keylessSeen_snoc_DN prev d x h1])
        simp [h1, h2, hseen, hrec]

/-- A merge survivor with a truthy document number never carries a number
from the incoming seen-set. -/
theorem mem_dedupGo_DN : ∀ (l : List Doc) (dns titles : List Str) (d : Doc),
    d ∈ dedupGo dns titles l → truthy d.DN = true → dns.contains (getS d.DN) = false := by
  intro l
  induction l with
  | nil => intro dns titles d h _; exact absurd h (List.not_mem_nil d)
  | cons e rest ih =>
    intro dns titles d h htd
    rcases hA : truthy e.DN && dns.contains (getS e.DN) with _ | _
    · rcases hB : !truthy e.DN && truthy e.TI && titles.contains (getS e.TI) with _ | _
      · simp only [dedupGo, hA, hB, Bool.false_eq_true, if_false] at h
        rcases List.mem_cons.mp h with rfl | hmem
        · rcases hcont : dns.contains (getS d.DN) with _ | _
          · rfl
          · rw [htd, hcont] at hA
            simp at hA
        · have hsub := ih _ _ d hmem htd
          rcases hed : truthy e.DN with _ | _
          · rw [hed] at hsub
            simpa using hsub
          · rw [hed] at hsub
            simp only [if_true] at hsub
            rw [contains_cons_or] at hsub
            rcases hx : dns.contains (getS d.DN) with _ | _
            · rfl
            · rw [hx] at hsub
              simp at hsub
      · simp only [dedupGo, hA, hB, Bool.false_eq_true, if_false, if_true] at h
        exact ih _ _ d h htd
    · simp only [dedupGo, hA, if_true] at h
      exact ih _ _ d h htd

/-- A key-less merge survivor with a truthy title never carries a title from
the incoming seen-set. -/
theorem mem_dedupGo_TI : ∀ (l : List Doc) (dns titles : List Str) (d : Doc),
    d ∈ dedupGo dns titles l → truthy d.DN = false → truthy d.TI = true →
    titles.contains (getS d.TI) = false := by
  intro l
  induction l with
  | nil => intro dns titles d h _ _; exact absurd h (List.not_mem_nil d)
  | cons e rest ih =>
    intro dns titles d h htd hti
    rcases hA : truthy e.DN && dns.contains (getS e.DN) with _ | _
    · rcases hB : !truthy e.DN && truthy e.TI && titles.contains (getS e.TI) with _ | _
      · simp only [dedupGo, hA, hB, Bool.false_eq_true, if_false] at h
        rcases List.mem_cons.mp h with rfl | hmem
        · rw [htd, hti] at hB
          simpa using hB
        · have hsub := ih _ _ d hmem htd hti
          rcases het : truthy e.TI with _ | _
          · rw [het] at hsub
            simpa using hsub
          · rw [het] at hsub
            simp only [if_true] at hsub
            rw [contains_cons_or] at hsub
            rcases hx : titles.contains (getS d.TI) with _ | _
            · rfl
            · rw [hx] at hsub
              simp at hsub
      · simp only [dedupGo, hA, hB, Bool.false_eq_true, if_false, if_true] at h
        exact ih _ _ d h htd hti
    · simp only [dedupGo, hA, if_true] at h
      exact ih _ _ d h htd hti

/-- The numbers of the merge output are pairwise distinct: an in-batch
duplicate by document number is always dropped. -/
theorem pairwise_dedupGo_DN : ∀ (l : List Doc) (dns titles : List Str),
    (dedupGo dns titles l).Pairwise
      (fun a b => truthy a.DN = true → truthy b.DN = true → getS a.DN ≠ getS b.DN) := by
  intro l
  induction l with
  | nil => intro dns titles; exact List.Pairwise.nil
  | cons e rest ih =>
    intro dns titles
    rcases hA : truthy e.DN && dns.contains (getS e.DN) with _ | _
    · rcases hB : !truthy e.DN && truthy e.TI && titles.contains (getS e.TI) with _ | _
      · simp only [dedupGo, hA, hB, Bool.false_eq_true, if_false]
        refine List.Pairwise.cons ?_ (ih _ _)
        intro b hb hte htb
        have hc := mem_dedupGo_DN rest _ _ b hb htb
        rw [hte] at hc
        simp only [if_true] at hc
        rw [contains_cons_or] at hc
        intro heq
        rw [heq] at hc
        simp at hc
      · simp only [dedupGo, hA, hB, Bool.false_eq_true, if_false, if_true]
        exact ih _ _
    · simp only [dedupGo, hA, if_true]
      exact ih _ _

/-- The titles of the key-less merge output are pairwise distinct: an in-batch
duplicate by title is always dropped. -/
theorem pairwise_dedupGo_TI : ∀ (l : List Doc) (dns titles : List Str),
    (dedupGo dns titles l).Pairwise
      (fun a b => truthy a.DN = false → truthy b.DN = false → truthy a.TI = true →
        truthy b.TI = true → getS a.TI ≠ getS b.TI) := by
  intro l
  induction l with
  | nil => intro dns titles; exact List.Pairwise.nil
  | cons e rest ih =>
    intro dns titles
    rcases hA : truthy e.DN && dns.contains (getS e.DN) with _ | _
    · rcases hB : !truthy e.DN && truthy e.TI && titles.contains (getS e.TI) with _ | _
      · simp only [dedupGo, hA, hB, Bool.false_eq_true, if_false]
        refine List.Pairwise.cons ?_ (ih _ _)
        intro b hb _ hdb hte htb
        have hc := mem_dedupGo_TI rest _ _ b hb hdb htb
        rw [hte] at hc
        simp only [if_true] at hc
        rw [contains_cons_or] at hc
        intro heq
        rw [heq] at hc
        simp at hc
      · simp only [dedupGo, hA, hB, Bool.false_eq_true, if_false, if_true]
        exact ih _ _
    · simp only [dedupGo, hA, if_true]
      exact ih _ _

/-- The merge keeps candidates in order: its output is a subsequence of the
batch. -/
theorem dedupGo_sublist : ∀ (l : List Doc) (dns titles : List Str),
    (dedupGo dns titles l).Sublist l := by
  intro l
  induction l with
  | nil => intro dns titles; exact List.Sublist.refl []
  | cons e rest ih =>
    intro dns titles
    rcases hA : truthy e.DN && dns.contains (getS e.DN) with _ | _
    · rcases hB : !truthy e.DN && truthy e.TI && titles.contains (getS e.TI) with _ | _
      · simp only [dedupGo, hA, hB, Bool.false_eq_true, if_false]
        exact List.Sublist.cons₂ e (ih _ _)
      · simp only [dedupGo, hA, hB, Bool.false_eq_true, if_false, if_true]
        exact List.Sublist.cons e (ih _ _)
    · simp only [dedupGo, hA, if_true]
      exact List.Sublist.cons e (ih _ _)

/-- C3: `_deduplicate_documents` behaves exactly as claimed.  It equals the
claim's running-set algorithm (starting from the existing corpus's non-empty
numbers and titles, a candidate is dropped iff its non-empty number was seen,
or it lacks a number and its non-empty title was seen; survivors register
number and title immediately); consequently the output is a subsequence of
the batch, no survivor collides with the existing corpus's numbers (nor, for
key-less survivors, its titles), and output numbers and key-less titles are
pairwise distinct — in-batch duplicates are dropped and the first occurrence
wins. -/
theorem C3_deduplicate_matches_claim :
    (∀ existing new, deduplicate_documents existing new = dedupSpec existing new) ∧
    (∀ existing new, (deduplicate_documents existing new).Sublist new) ∧
    (∀ existing new d, d ∈ deduplicate_documents existing new → truthy d.DN = true →
      (existingDNs existing).contains (getS d.DN) = false) ∧
    (∀ existing new d, d ∈ deduplicate_documents existing new → truthy d.DN = false →
      truthy d.TI = true → (existingTitles existing).contains (getS d.TI) = false) ∧
    (∀ existing new, (deduplicate_documents existing new).Pairwise
      (fun a b => truthy a.DN = true → truthy b.DN = true → getS a.DN ≠ getS b.DN)) ∧
    (∀ existing new, (deduplicate_documents existing new).Pairwise
      (fun a b => truthy a.DN = false → truthy b.DN = false → truthy a.TI = true →
        truthy b.TI = true → getS a.TI ≠ getS b.TI)) :=
  ⟨fun _ new => dedupGo_eq_dedupSpecGo new _ _,
   fun _ new => dedupGo_sublist new _ _,
   fun _ new d h => mem_dedupGo_DN new _ _ d h,
   fun _ new d h => mem_dedupGo_TI new _ _ d h,
   fun _ new => pairwise_dedupGo_DN new _ _,
   fun _ new => pairwise_dedupGo_TI new _ _⟩

/-- C3 witness: an in-batch duplicate number against a disjoint existing
corpus, and the no-collision consequence at the surviving candidate. -/
theorem C3_witness :
    deduplicate_documents [ { DN := some (str "K9") } ]
        [ { DN := some (str "K1") }, { DN := some (str "K1") } ] =
      dedupSpec [ { DN := some (str "K9") } ]
        [ { DN := some (str "K1") }, { DN := some (str "K1") } ] ∧
    (existingDNs [ { DN := some (str "K9") } ]).contains
        (getS ({ DN := some (str "K1") } : Doc).DN) = false :=
  ⟨C3_deduplicate_matches_claim.1 [ { DN := some (str "K9") } ]
      [ { DN := some (str "K1") }, { DN := some (str "K1") } ],
   C3_deduplicate_matches_claim.2.2.1 [ { DN := some (str "K9") } ]
      [ { DN := some (str "K1") }, { DN := some (str "K1") } ] { DN := some (str "K1") }
      (by decide) (by decide)⟩

/-- A non-empty string field is truthy. -/
theorem truthy_some_ne (s : Str) (h : s ≠ []) : truthy (some s) = true := by
  cases s with
  | nil => exact absurd rfl h
  | cons a as => rfl

/-- C10: the cleanup pass keeps the first occurrence per non-empty document
number and, among number-less documents, the first per non-empty title, with
keyed documents never registering their titles (the positional description
`cleanSpec`); in contrast to the merge, where a surviving keyed document's
title blocks later key-less duplicates: on a keyed document followed by a
key-less one with the same title, cleanup keeps both while the merge from an
empty corpus drops the second. -/
theorem C10_clean_vs_dedup_title_registration :
    (∀ documents : List Doc, clean_existing_duplicates documents = cleanSpec documents) ∧
    (∀ dn ti : Str, dn ≠ [] → ti ≠ [] →
      clean_existing_duplicates [ { DN := some dn, TI := some ti }, { TI := some ti } ] =
        [ { DN := some dn, TI := some ti }, { TI := some ti } ] ∧
      deduplicate_documents [] [ { DN := some dn, TI := some ti }, { TI := some ti } ] =
        [ { DN := some dn, TI := some ti } ]) := by
  constructor
  · intro documents
    cases documents with
    | nil => rfl
    | cons d rest =>
      exact cleanGo_eq_cleanSpecAux (d :: rest) [] [] [] (fun _ => rfl) (fun _ => rfl)
  · intro dn ti hdn hti
    have hdn' : truthy (some dn) = true := truthy_some_ne dn hdn
    have hti' : truthy (some ti) = true := truthy_some_ne ti hti
    constructor
    · simp [clean_existing_duplicates, cleanGo, hdn', hti', getS, truthy, hdn, hti]
    · simp [deduplicate_documents, existingDNs, existingTitles, dedupGo, hdn', hti', getS,
        truthy, List.contains_cons, hdn, hti]

/-- C10 witness: the contrast at a concrete keyed/key-less title collision. -/
theorem C10_witness :
    clean_existing_duplicates
        [ { DN := some (str "K1"), TI := some (str "T") }, { TI := some (str "T") } ] =
      [ { DN := some (str "K1"), TI := some (str "T") }, { TI := some (str "T") } ] ∧
    deduplicate_documents []
        [ { DN := some (str "K1"), TI := some (str "T") }, { TI := some (str "T") } ] =
      [ { DN := some (str "K1"), TI := some (str "T") } ] :=
  C10_clean_vs_dedup_title_registration.2 (str "K1") (str "T") (by decide) (by decide)

/-- C4: with no override flags the planner returns `to_date = today`, and
`from_date` is the day after a parsable watermark; an absent watermark and an
unparsable one (treated as absent, with only a warning) both fall back to the
epoch start 2024-01-01. -/
theorem C4_date_window_planning (st : CrawlState) (today : Date) :
    (∀ s d, st.last_checked_date = some s → parseDate s = some d →
      get_date_range st today = (nextDay d, today)) ∧
    (st.last_checked_date = none → get_date_range st today = (⟨2024, 1, 1⟩, today)) ∧
    (∀ s, st.last_checked_date = some s → parseDate s = none →
      get_date_range st today = (⟨2024, 1, 1⟩, today)) := by
  refine ⟨?_, ?_, ?_⟩
  · intro s d hs hp
    have hne : s ≠ [] := by
      rintro rfl
      rw [show parseDate [] = none from rfl] at hp
      exact Option.noConfusion hp
    simp [get_date_range, hs, truthy_some_ne s hne, getS, hp]
  · intro h
    simp [get_date_range, h, truthy, getS]
  · intro s hs hp
    by_cases hem : s = []
    · subst hem
      simp [get_date_range, hs, truthy, getS]
    · simp [get_date_range, hs, truthy_some_ne s hem, getS, hp]

/-- C4 witness: watermark 2024-06-01 plans from 2024-06-02; an absent and an
unparsable watermark both plan from 2024-01-01.  The last two cases exercise
the `strptime` fidelity of the embedded parser: a three-digit year does not
parse (epoch fallback) while a space-padded day does. -/
theorem C4_witness :
    get_date_range { last_checked_date := some (str "2024-06-01") } ⟨2025, 1, 1⟩ =
      (⟨2024, 6, 2⟩, ⟨2025, 1, 1⟩) ∧
    get_date_range {} ⟨2025, 1, 1⟩ = (⟨2024, 1, 1⟩, ⟨2025, 1, 1⟩) ∧
    get_date_range { last_checked_date := some (str "not-a-date") } ⟨2025, 1, 1⟩ =
      (⟨2024, 1, 1⟩, ⟨2025, 1, 1⟩) ∧
    get_date_range { last_checked_date := some (str "999-01-01") } ⟨2025, 1, 1⟩ =
      (⟨2024, 1, 1⟩, ⟨2025, 1, 1⟩) ∧
    get_date_range { last_checked_date := some (str "2024-01- 9") } ⟨2025, 1, 1⟩ =
      (⟨2024, 1, 10⟩, ⟨2025, 1, 1⟩) :=
  ⟨((C4_date_window_planning _ _).1 (str "2024-06-01") ⟨2024, 6, 1⟩ rfl (by decide)).trans
      (by decide),
   (C4_date_window_planning _ _).2.1 rfl,
   (C4_date_window_planning _ _).2.2 (str "not-a-date") rfl (by decide),
   (C4_date_window_planning _ _).2.2 (str "999-01-01") rfl (by decide),
   ((C4_date_window_planning _ _).1 (str "2024-01- 9") ⟨2024, 1, 9⟩ rfl (by decide)).trans
      (by decide)⟩

/-- C5: a run whose planned window is exhausted (`from_date > to_date`) is a
no-op: status `up_to_date`, zero new documents, a total equal to the stored
corpus size, the crawl state rewritten with `last_checked_date = to_date`, the
fresh `last_run` and that total, the corpus untouched and the gateway never
invoked (the final `false`). -/
theorem C5_up_to_date_run (w : World) (f : Faults) (gw : Except Str (List Doc)) (today : Date)
    (now : Str) (f24 fy : Bool) (hlr : f.loadResults = true) (hss : f.saveState = true)
    (hwin : dateLt (plannedWindow w f today f24 fy).2 (plannedWindow w f today f24 fy).1 = true) :
    scrape w f gw today now f24 fy =
      ({ status := str "up_to_date",
         from_date := some (plannedWindow w f today f24 fy).1,
         to_date := some (plannedWindow w f today f24 fy).2,
         last_checked_date := some (dateISO (plannedWindow w f today f24 fy).2),
         new_documents := 0, total_documents := w.results.length },
       { w with state :=
          { last_checked_date := some (dateISO (plannedWindow w f today f24 fy).2),
            last_run := some now, total_documents := w.results.length } },
       false) := by
  simp [scrape, hwin, load_results, hlr, save_state, hss]

/-- C5 witness: a concrete exhausted window (watermark 2099-01-01, today
2024-06-01) with a one-document corpus. -/
theorem C5_witness :
    scrape upToDateWorld noFaults (Except.ok []) ⟨2024, 6, 1⟩ (str "NOW") false false =
      ({ status := str "up_to_date", from_date := some ⟨2099, 1, 2⟩,
         to_date := some ⟨2024, 6, 1⟩, last_checked_date := some (str "2024-06-01"),
         new_documents := 0, total_documents := 1 },
       { upToDateWorld with state :=
          { last_checked_date := some (str "2024-06-01"), last_run := some (str "NOW"),
            total_documents := 1 } },
       false) :=
  (C5_up_to_date_run upToDateWorld noFaults (Except.ok []) ⟨2024, 6, 1⟩ (str "NOW") false false
      rfl rfl (by decide)).trans (by decide)

/-- C6 counterexample: in a run where writing the results file fails, `scrape`
reports status `success` with one new document although nothing was persisted —
a store write failure does not surface as status `error`. -/
theorem C6_cx_save_failure_reports_success :
    faultySaveRun.1.status = str "success" ∧ faultySaveRun.1.new_documents = 1 ∧
      faultySaveRun.2.1.results = [] := by decide

/-- C6 as amended: a failure raised while fetching (the web client raising
into `scrape`'s handler) yields status `error` and leaves both files exactly
as they were; store write failures, however, are caught and logged inside the
save helpers — whatever else happens, a run with a failing results-file write
leaves the previously stored corpus in place without turning the run into an
error. -/
theorem C6_fetch_error_vs_swallowed_persistence :
    (∀ (w : World) (f : Faults) (msg : Str) (today : Date) (now : Str) (f24 fy : Bool),
      dateLt (plannedWindow w f today f24 fy).2 (plannedWindow w f today f24 fy).1 = false →
      scrape w f (Except.error msg) today now f24 fy = ({ status := str "error" }, w, true)) ∧
    (∀ (w : World) (f : Faults) (gw : Except Str (List Doc)) (today : Date) (now : Str)
        (f24 fy : Bool), f.saveResults = false →
      (scrape w f gw today now f24 fy).2.1.results = w.results) := by
  constructor
  · intro w f msg today now f24 fy hwin
    simp [scrape, hwin]
  · intro w f gw today now f24 fy h
    simp only [scrape]
    split
    · cases hs : f.saveState <;> simp [save_state, hs]
    · rcases gw with msg | raw
      · rfl
      · cases hs : f.saveState <;>
          cases he : (deduplicate_documents (clean_existing_duplicates (load_results w f))
            (enrich_documents (filter_documents raw) now)).isEmpty <;>
            simp [save_state, save_results, hs, he, h]

/-- C6 witness: a concrete failing fetch returns the error triple unchanged,
and a concrete run with a failing results write keeps the empty corpus. -/
theorem C6_witness :
    scrape { results := [], state := {} } noFaults (Except.error (str "boom")) ⟨2024, 1, 2⟩
        (str "NOW") false false =
      ({ status := str "error" }, { results := [], state := {} }, true) ∧
    (scrape { results := [], state := {} } { saveResults := false } (Except.ok []) ⟨2024, 1, 2⟩
        (str "NOW") false false).2.1.results = [] :=
  ⟨C6_fetch_error_vs_swallowed_persistence.1 { results := [], state := {} } noFaults
      (str "boom") ⟨2024, 1, 2⟩ (str "NOW") false false (by decide),
   C6_fetch_error_vs_swallowed_persistence.2 { results := [], state := {} }
      { saveResults := false } (Except.ok []) ⟨2024, 1, 2⟩ (str "NOW") false false rfl⟩

/-- Lexicographic comparison of strings is total. -/
theorem strLe_total : ∀ a b : Str, strLe a b = true ∨ strLe b a = true
  | [], _ => Or.inl rfl
  | _ :: _, [] => Or.inr rfl
  | a :: as, b :: bs => by
    simp only [strLe, Bool.or_eq_true, Bool.and_eq_true, decide_eq_true_eq]
    rcases Nat.lt_trichotomy a.toNat b.toNat with h | h | h
    · exact Or.inl (Or.inl h)
    · rcases strLe_total as bs with ih | ih
      · exact Or.inl (Or.inr ⟨h, ih⟩)
      · exact Or.inr (Or.inr ⟨h.symm, ih⟩)
    · exact Or.inr (Or.inl h)

/-- Inserting into a date-sorted list keeps it date-sorted. -/
theorem sortedDesc_insertDesc (d : Doc) (l : List Doc) (h : SortedByDateDesc l) :
    SortedByDateDesc (insertDesc d l) := by
  induction l with
  | nil => simp [insertDesc, SortedByDateDesc]
  | cons e es ih =>
    have htl : SortedByDateDesc es := (List.chain'_cons'.mp h).2
    by_cases hc : strLe (sortKey e) (sortKey d) = true
    · simp only [insertDesc, hc, if_true]
      exact List.chain'_cons.mpr ⟨hc, h⟩
    · have hcf : strLe (sortKey e) (sortKey d) = false := by
        rwa [Bool.not_eq_true] at hc
      have hed : strLe (sortKey d) (sortKey e) = true := by
        rcases strLe_total (sortKey e) (sortKey d) with ht | ht
        · rw [hcf] at ht; exact Bool.noConfusion ht
        · exact ht
      simp only [insertDesc, hcf, Bool.false_eq_true, if_false]
      refine List.chain'_cons'.mpr ⟨?_, ih htl⟩
      intro y hy
      cases es with
      | nil =>
        simp [insertDesc] at hy
        subst hy
        exact hed
      | cons e' es' =>
        by_cases hc2 : strLe (sortKey e') (sortKey d) = true
        · simp [insertDesc, hc2] at hy
          subst hy
          exact hed
        · have hc2f : strLe (sortKey e') (sortKey d) = false := by
            rwa [Bool.not_eq_true] at hc2
          simp [insertDesc, hc2f] at hy
          subst hy
          exact (List.chain'_cons.mp h).1

/-- The corpus sort produces a date-sorted list. -/
theorem sortByDateDesc_sorted (l : List Doc) : SortedByDateDesc (sortByDateDesc l) := by
  induction l with
  | nil => simp [sortByDateDesc, SortedByDateDesc]
  | cons d ds ih => exact sortedDesc_insertDesc d _ ih

/-- C7 counterexample: a fault-free successful run in which nothing new was
found leaves the previously stored (ascending, hence unsorted) corpus exactly
as it was: the persisted corpus is neither the claim's re-sorted merge nor
sorted by publication date descending. -/
theorem C7_cx_no_new_docs_skips_resort :
    noNewRun.1.status = str "success" ∧
    noNewRun.2.1.results ≠
      sortByDateDesc (unsortedWorld.results ++
        deduplicate_documents (clean_existing_duplicates unsortedWorld.results)
          (enrich_documents (filter_documents []) (str "NOW"))) ∧
    ¬ SortedByDateDesc noNewRun.2.1.results := by
  refine ⟨by decide, by decide, ?_⟩
  intro h
  have hres : noNewRun.2.1.results =
      [ { DN := some (str "K1"), publication_date := some (str "2024-01-01") },
        { DN := some (str "K2"), publication_date := some (str "2024-05-01") } ] := by decide
  rw [hres] at h
  exact absurd (List.chain'_cons.mp h).1 (by decide)

/-- C7 as amended: after a fault-free successful run, when at least one unique
new document exists the persisted corpus is the cleaned existing corpus plus
the unique new documents re-sorted by publication date descending (hence
sorted), and the state carries `last_checked_date = to_date`, the fresh
`last_run` and the merged length; when nothing new survives deduplication the
results file is left untouched and only the state is rewritten, its total
being the length of the cleaned loaded corpus. -/
theorem C7_success_persistence (w : World) (f : Faults) (raw : List Doc) (today : Date)
    (now : Str) (f24 fy : Bool) (hlr : f.loadResults = true) (hsr : f.saveResults = true)
    (hss : f.saveState = true)
    (hwin : dateLt (plannedWindow w f today f24 fy).2 (plannedWindow w f today f24 fy).1 = false) :
    (let existing := clean_existing_duplicates w.results
     let unique_new :=
       deduplicate_documents existing (enrich_documents (filter_documents raw) now)
     let all_results :=
       if unique_new.isEmpty then existing else sortByDateDesc (existing ++ unique_new)
     (scrape w f (Except.ok raw) today now f24 fy).1.status = str "success" ∧
     (scrape w f (Except.ok raw) today now f24 fy).2.1 =
       { results := if unique_new.isEmpty then w.results else all_results,
         state :=
           { last_checked_date := some (dateISO (plannedWindow w f today f24 fy).2),
             last_run := some now, total_documents := all_results.length } } ∧
     (scrape w f (Except.ok raw) today now f24 fy).1.total_documents = all_results.length ∧
     (unique_new.isEmpty = false →
       SortedByDateDesc (scrape w f (Except.ok raw) today now f24 fy).2.1.results)) := by
  rcases he : (deduplicate_documents (clean_existing_duplicates w.results)
      (enrich_documents (filter_documents raw) now)).isEmpty with _ | _
  · refine ⟨?_, ?_, ?_, ?_⟩ <;>
      simp [scrape, hwin, load_results, hlr, save_results, hsr, save_state, hss, he,
        sortByDateDesc_sorted]
  · refine ⟨?_, ?_, ?_, ?_⟩ <;>
      simp [scrape, hwin, load_results, hlr, save_results, hsr, save_state, hss, he]

/-- C7 witness: a fault-free run over an empty store with one matching raw
candidate. -/
theorem C7_witness :
    (let existing := clean_existing_duplicates emptyWorld.results
     let unique_new :=
       deduplicate_documents existing
         (enrich_documents (filter_documents oneMatchRaw) (str "NOW"))
     let all_results :=
       if unique_new.isEmpty then existing else sortByDateDesc (existing ++ unique_new)
     (scrape emptyWorld noFaults (Except.ok oneMatchRaw) ⟨2024, 1, 2⟩ (str "NOW")
         false false).1.status = str "success" ∧
     (scrape emptyWorld noFaults (Except.ok oneMatchRaw) ⟨2024, 1, 2⟩ (str "NOW")
         false false).2.1 =
       { results := if unique_new.isEmpty then emptyWorld.results else all_results,
         state :=
           { last_checked_date :=
               some (dateISO (plannedWindow emptyWorld noFaults ⟨2024, 1, 2⟩ false false).2),
             last_run := some (str "NOW"), total_documents := all_results.length } } ∧
     (scrape emptyWorld noFaults (Except.ok oneMatchRaw) ⟨2024, 1, 2⟩ (str "NOW")
         false false).1.total_documents = all_results.length ∧
     (unique_new.isEmpty = false →
       SortedByDateDesc (scrape emptyWorld noFaults (Except.ok oneMatchRaw) ⟨2024, 1, 2⟩
         (str "NOW") false false).2.1.results)) :=
  C7_success_persistence emptyWorld noFaults oneMatchRaw ⟨2024, 1, 2⟩ (str "NOW") false false
    rfl rfl rfl (by decide)

/-- Boolean prefix test as an existential decomposition. -/
theorem isPrefixOf_iff_exists : ∀ (l l' : Str), l.isPrefixOf l' = true ↔ ∃ t, l' = l ++ t
  | [], l' => by simp [List.isPrefixOf]
  | _ :: _, [] => by simp [List.isPrefixOf]
  | a :: as, b :: bs => by
    simp only [List.isPrefixOf, Bool.and_eq_true, beq_iff_eq, isPrefixOf_iff_exists as bs,
      List.cons_append]
    constructor
    · rintro ⟨rfl, t, rfl⟩
      exact ⟨t, rfl⟩
    · rintro ⟨t, h⟩
      injection h with h1 h2
      exact ⟨h1.symm, t, h2⟩

/-- Past the end of the text there are no word characters. -/
theorem wordAt_ge {s : Str} {p : Nat} (h : s.length ≤ p) : wordAt s p = false := by
  have h0 : s.get? p = none := List.get?_eq_none.mpr h
  unfold wordAt
  rw [h0]

/-- A word boundary only exists inside the text or at its very end. -/
theorem boundaryAt_le {s : Str} {p : Nat} (h : boundaryAt s p = true) : p ≤ s.length := by
  by_contra hc
  push_neg at hc
  have h0 : p ≠ 0 := by omega
  have h1 : wordAt s p = false := wordAt_ge (Nat.le_of_lt hc)
  have h2 : wordAt s (p - 1) = false := wordAt_ge (by omega)
  rw [boundaryAt, if_neg h0, h1, h2] at h
  simp at h

/-- A non-wildcard pattern match lies inside the text. -/
theorem plainMatchAt_le {s kw : Str} {i : Nat} (h : plainMatchAt s kw i = true) :
    i ≤ s.length := by
  simp only [plainMatchAt, Bool.and_eq_true] at h
  exact Nat.le_trans (Nat.le_add_right i kw.length) (boundaryAt_le h.2)

/-- `re.search` of the non-wildcard pattern finds a match at some position. -/
theorem plainSearch_iff (s kw : Str) :
    plainSearch s kw = true ↔ ∃ i, plainMatchAt s kw i = true := by
  simp only [plainSearch, List.any_eq_true, List.mem_range]
  constructor
  · rintro ⟨i, _, h⟩
    exact ⟨i, h⟩
  · rintro ⟨i, h⟩
    exact ⟨i, Nat.lt_succ_of_le (plainMatchAt_le h), h⟩

/-- A wildcard pattern match lies inside the text. -/
theorem wildMatchAt_le {s stem : Str} {i : Nat} (h : wildMatchAt s stem i = true) :
    i ≤ s.length := by
  simp only [wildMatchAt, Bool.and_eq_true] at h
  exact boundaryAt_le h.1.1

/-- `re.search` of the wildcard pattern finds a match at some position. -/
theorem wildSearch_iff (s stem : Str) :
    wildSearch s stem = true ↔ ∃ i, wildMatchAt s stem i = true := by
  simp only [wildSearch, List.any_eq_true, List.mem_range]
  constructor
  · rintro ⟨i, _, h⟩
    exact ⟨i, h⟩
  · rintro ⟨i, h⟩
    exact ⟨i, Nat.lt_succ_of_le (wildMatchAt_le h), h⟩

/-- `takeWhile` passes over a block that satisfies the predicate. -/
theorem takeWhile_append_all {p : Char → Bool} :
    ∀ (l t : Str), l.all p = true → (l ++ t).takeWhile p = l ++ t.takeWhile p
  | [], _, _ => rfl
  | a :: as, t, h => by
    simp only [List.all_cons, Bool.and_eq_true] at h
    simp [List.takeWhile_cons, h.1, takeWhile_append_all as t h.2]

/-- Word characters are not the wildcard marker. -/
theorem wordChar_ne_star {c : Char} (h : isWordChar c = true) : (decide (c ≠ '*')) = true := by
  have hne : c ≠ '*' := by
    rintro rfl
    revert h
    decide
  exact decide_eq_true hne

/-- The literal part of a well-formed wildcard keyword is its stem. -/
theorem stemOf_append_star (stem : Str) (hw : stem.all isWordChar = true) :
    stemOf (stem ++ ['*']) = stem := by
  have hall : stem.all (fun c => decide (c ≠ '*')) = true := by
    rw [List.all_eq_true] at hw ⊢
    intro c hc
    exact wordChar_ne_star (hw c hc)
  rw [stemOf, takeWhile_append_all stem ['*'] hall]
  simp [List.takeWhile_cons]

/-- Membership in the report list of `_find_keyword_matches`. -/
theorem mem_find_keyword_matches_iff (text : Str) (kws : List Str) (kw : Str)
    (htext : text ≠ []) :
    kw ∈ find_keyword_matches text kws ↔
      kw ∈ kws ∧ keywordHit (normalize_text text) kw = true := by
  have hempty : text.isEmpty = false := by
    cases text with
    | nil => exact absurd rfl htext
    | cons a as => rfl
  simp [find_keyword_matches, hempty, List.mem_filter]

/-- The non-wildcard regex semantics, spelled out: a literal occurrence with a
word boundary after it and, before it, a word boundary or a glued prefix. -/
theorem plainMatch_exists_iff_PlainOccurs (s k : Str) :
    (∃ i, plainMatchAt s k i = true) ↔ PlainOccurs s k := by
  unfold PlainOccurs
  apply exists_congr
  intro i
  simp only [plainMatchAt, plainStartOk, Bool.and_eq_true, Bool.or_eq_true,
    isPrefixOf_iff_exists]
  tauto

/-- The wildcard regex semantics: `\b stem \w* \b` matches somewhere iff some
token carries the stem as a literal prefix. -/
theorem wild_exists_iff_TokenPrefix (s stem : Str) (_hne : stem ≠ [])
    (hw : stem.all isWordChar = true) :
    (∃ i, wildMatchAt s stem i = true) ↔ TokenPrefix s stem := by
  constructor
  · rintro ⟨i, h⟩
    simp only [wildMatchAt, Bool.and_eq_true] at h
    obtain ⟨⟨hbi, hpre⟩, htail⟩ := h
    rw [isPrefixOf_iff_exists] at hpre
    obtain ⟨t, ht⟩ := hpre
    simp only [wildTailOk, List.any_eq_true, List.mem_range, Bool.and_eq_true] at htail
    obtain ⟨n, _, hrun, hbend⟩ := htail
    have htake : (s.drop i).take (stem.length + n) =
        stem ++ ((s.drop i).drop stem.length).take n := by
      rw [List.take_add]
      congr 1
      rw [ht, List.take_left]
    refine ⟨i, stem.length + n, hbi, ?_, ?_, ?_⟩
    · rw [← Nat.add_assoc]
      exact hbend
    · rw [htake, List.all_append, Bool.and_eq_true]
      refine ⟨hw, ?_⟩
      rw [List.drop_drop]
      exact hrun
    · exact ⟨((s.drop i).drop stem.length).take n, htake⟩
  · rintro ⟨i, n, hbi, hbn, hall, t, ht⟩
    have hin : i + n ≤ s.length := boundaryAt_le hbn
    have hi : i ≤ s.length := boundaryAt_le hbi
    have hlen_take : ((s.drop i).take n).length = n := by
      rw [List.length_take, List.length_drop]
      omega
    have hstemle : stem.length ≤ n := by
      have hlen := congrArg List.length ht
      rw [hlen_take, List.length_append] at hlen
      omega
    refine ⟨i, ?_⟩
    simp only [wildMatchAt, Bool.and_eq_true]
    refine ⟨⟨hbi, ?_⟩, ?_⟩
    · rw [isPrefixOf_iff_exists]
      refine ⟨t ++ (s.drop i).drop n, ?_⟩
      conv_lhs => rw [← List.take_append_drop n (s.drop i)]
      rw [ht, List.append_assoc]
    · simp only [wildTailOk, List.any_eq_true, List.mem_range, Bool.and_eq_true]
      refine ⟨n - stem.length, by omega, ?_, ?_⟩
      · have hdt : (s.drop (i + stem.length)).take (n - stem.length) = t := by
          rw [← List.drop_drop, ← List.drop_take n stem.length (s.drop i), ht,
            List.drop_left]
        rw [hdt]
        rw [ht, List.all_append, Bool.and_eq_true] at hall
        exact hall.2
      · have harith : i + stem.length + (n - stem.length) = i + n := by omega
        rw [harith]
        exact hbn

/-- C2 counterexample: for text `inmorocco` the keyword `Morocco` has no
occurrence with word boundaries on both sides — the only occurrence is
embedded in the longer token — yet `_find_keyword_matches` reports it, through
the glued `in` prefix alternative of the pattern. -/
theorem C2_cx_glued_prefix_defeats_word_boundary :
    find_keyword_matches (str "inmorocco") [ str "Morocco"] = [ str "Morocco"] ∧
    occursDelimitedB (normalize_text (str "Morocco")) (normalize_text (str "inmorocco")) =
      false := by decide

/-- C2 as amended: a non-wildcard keyword is reported exactly when it occurs in
the normalized text with a word boundary at its end and, at its start, either a
word boundary or one of the glued literal prefixes in/from/to/of itself
starting at a word boundary; a stem-form wildcard keyword is reported exactly
when some token — a word-character block with boundaries on both sides — has
the stem as a literal prefix (hence nothing sharing only a shorter prefix
matches). -/
theorem C2_keyword_reporting :
    (∀ (text : Str) (kws : List Str) (kw : Str), kw ∈ kws →
      (normalize_text kw).contains '*' = false → text ≠ [] →
      (kw ∈ find_keyword_matches text kws ↔
        PlainOccurs (normalize_text text) (normalize_text kw))) ∧
    (∀ (text : Str) (kws : List Str) (kw stem : Str), kw ∈ kws →
      normalize_text kw = stem ++ ['*'] → stem ≠ [] → stem.all isWordChar = true →
      text ≠ [] →
      (kw ∈ find_keyword_matches text kws ↔ TokenPrefix (normalize_text text) stem)) := by
  constructor
  · intro text kws kw hmem hstar htext
    rw [mem_find_keyword_matches_iff text kws kw htext]
    simp only [hmem, true_and]
    simp only [keywordHit, hstar, Bool.false_eq_true, if_false]
    rw [plainSearch_iff, plainMatch_exists_iff_PlainOccurs]
  · intro text kws kw stem hmem hsplit hne hw htext
    rw [mem_find_keyword_matches_iff text kws kw htext]
    simp only [hmem, true_and]
    have hstar : (normalize_text kw).contains '*' = true := by
      rw [hsplit]
      simp
    have hstem : stemOf (normalize_text kw) = stem := by
      rw [hsplit]
      exact stemOf_append_star stem hw
    simp only [keywordHit, hstar, if_true, hstem]
    rw [wildSearch_iff, wild_exists_iff_TokenPrefix _ stem hne hw]

/-- C2 witness: the characterization applied to a plain keyword occurring with
clean boundaries and to a stem-form wildcard keyword matching an inflection. -/
theorem C2_witness :
    (str "Morocco" ∈ find_keyword_matches (str "trade with morocco") [ str "Morocco"] ↔
      PlainOccurs (normalize_text (str "trade with morocco"))
        (normalize_text (str "Morocco"))) ∧
    (str "fertiliz*" ∈ find_keyword_matches (str "mineral fertilizers")
        [ str "fertiliz*"] ↔
      TokenPrefix (normalize_text (str "mineral fertilizers")) (str "fertiliz")) :=
  ⟨C2_keyword_reporting.1 (str "trade with morocco") [ str "Morocco"] (str "Morocco")
      (List.mem_singleton.mpr rfl) (by decide) (by decide),
   C2_keyword_reporting.2 (str "mineral fertilizers") [ str "fertiliz*"] (str "fertiliz*")
      (str "fertiliz") (List.mem_singleton.mpr rfl) (by decide) (by decide) (by decide)
      (by decide)⟩

end EURLexTrade
